import Mathlib

/-!
Shallow embedding of `pypdfbookmarks.py` (class `BookmarkNode` and the
module-level `write_pdf`), together with theorems settling the frozen
claims about the bookmark tree, its JSON serialization, and PDF export.

Two views of the program are embedded:

* a pure-value view (`BTree`) for the functions that only read or rebuild
  the tree recursively (`get_dict`, `load_dict`, `print_tree`,
  `add_to_pdf`, `write_pdf`);
* a heap view (`Heap := Nat → PNode`, object identity as a `Nat` id) for
  the mutating methods that work through aliased parent/child references
  (`add_child`, `set_parent`, `move_to`, `remove`).
-/

/-- Python/JSON values, as far as the program manipulates them: the
values that can appear in `get_dict` output and `load_dict` input. -/
inductive JValue where
  | jnull
  | jbool (b : Bool)
  | jint (n : Int)
  | jstr (s : String)
  | jarr (xs : List JValue)
  | jobj (fields : List (String × JValue))

/-- In-memory bookmark tree, pure view: `BookmarkNode` as a value.
`title` is a `JValue` because Python stores whatever `load_dict` read
(`None` for a fresh node); `page_number` is the stored integer field. -/
inductive BTree where
  | node (title : JValue) (page_number : Int) (children : List BTree)

def BTree.title : BTree → JValue
  | .node t _ _ => t

def BTree.page_number : BTree → Int
  | .node _ p _ => p

def BTree.children : BTree → List BTree
  | .node _ _ c => c

/-- A fresh `BookmarkNode()`: `title=None`, `page_number=0`, no children. -/
def freshNode : BTree := .node .jnull 0 []

mutual

/-- `BookmarkNode.get_dict`: `{'title': self.title,
'page_number': self.page_number + 1,
'children': [child.get_dict() for child in self.children]}`. -/
def get_dict : BTree → JValue
  | .node t p cs =>
      .jobj [("title", t), ("page_number", .jint (p + 1)),
             ("children", .jarr (get_dict_list cs))]

/-- The list comprehension `[child.get_dict() for child in self.children]`. -/
def get_dict_list : List BTree → List JValue
  | [] => []
  | c :: cs => get_dict c :: get_dict_list cs

end

/-- Python `d[k]` for a string key `k`: `KeyError` when the key is absent
from a dict, `TypeError` when `d` is not a dict. -/
def pyGetItem : JValue → String → Except String JValue
  | .jobj fields, k =>
      match fields.lookup k with
      | some v => .ok v
      | none => .error "KeyError"
  | _, _ => .error "TypeError: value is not subscriptable by a string"

/-- Python `v - 1` as it appears in `load_dict`: defined on ints (and on
bools, which are ints in Python), `TypeError` otherwise. -/
def pySub1 : JValue → Except String Int
  | .jint n => .ok (n - 1)
  | .jbool b => .ok ((if b then 1 else 0) - 1)
  | _ => .error "TypeError: unsupported operand type for -"

/-- Python `for x in v` in `load_dict`. The program only ever receives a
JSON array here on schema-conforming input; a non-array raises (CPython
would iterate a str/dict element-wise, every element then failing the
`child_dict['title']` lookup immediately, so the failure still
propagates). -/
def pyIterList : JValue → Except String (List JValue)
  | .jarr xs => .ok xs
  | _ => .error "TypeError: value is not iterable"

def BTree.setTitle : BTree → JValue → BTree
  | .node _ p cs, t => .node t p cs

def BTree.setPage : BTree → Int → BTree
  | .node t _ cs, p => .node t p cs

def BTree.setChildren : BTree → List BTree → BTree
  | .node t p _, cs => .node t p cs

def BTree.appendChild : BTree → BTree → BTree
  | .node t p cs, c => .node t p (cs ++ [c])

mutual

/-- `BookmarkNode.load_dict`, run against an in-place mutation semantics:
given the node's current state and the input value, return the node's
state when the call finishes together with `none` on success or
`some err` when a Python exception propagates out.  Statement order of
the source is preserved: `self.title` is assigned first, then
`self.page_number`, then `self.children = []`, then each child is
attached by `add_child` before `child.load_dict(child_dict)` runs.
`fuel` only bounds the recursion (the Python recursion has no bound of
its own); every run with enough fuel for its input is fuel
independent. -/
def loadDictRun : Nat → BTree → JValue → BTree × Option String
  | 0, t, _ => (t, some "RecursionError")
  | fuel + 1, t, v =>
    match pyGetItem v "title" with
    | .error e => (t, some e)
    | .ok tv =>
      let t1 := t.setTitle tv
      match pyGetItem v "page_number" with
      | .error e => (t1, some e)
      | .ok pv =>
        match pySub1 pv with
        | .error e => (t1, some e)
        | .ok pn =>
          let t2 := (t1.setPage pn).setChildren []
          match pyGetItem v "children" with
          | .error e => (t2, some e)
          | .ok cv =>
            match pyIterList cv with
            | .error e => (t2, some e)
            | .ok items => loadChildrenRun fuel t2 items

/-- The `for child_dict in bookmarks_dict['children']` loop body:
`child = BookmarkNode(); self.add_child(child); child.load_dict(child_dict)`.
A child that fails mid-load stays attached in its partial state. -/
def loadChildrenRun : Nat → BTree → List JValue → BTree × Option String
  | _, t, [] => (t, none)
  | 0, t, _ :: _ => (t, some "RecursionError")
  | fuel + 1, t, v :: vs =>
    match loadDictRun fuel freshNode v with
    | (c, some e) => (t.appendChild c, some e)
    | (c, none) => loadChildrenRun fuel (t.appendChild c) vs

end

/-- `BookmarkNode.load_json`: `json.loads` runs first (external stdlib;
its outcome is the `Except` argument) and `load_dict` only runs on a
successfully parsed value, so a parse failure touches nothing. -/
def loadJsonRun (fuel : Nat) (t : BTree) (parsed : Except String JValue) :
    BTree × Option String :=
  match parsed with
  | .error e => (t, some e)
  | .ok v => loadDictRun fuel t v

mutual

/-- Recursion of `BookmarkNode.print_tree` below the top call: the call
`self.print_tree(num, node, depth)` with `node` not `None` prints the
line for `node` at `depth` and then recurses into its children at
`depth + 1`.  The printed line is modelled as the `(node, depth)` pair
it renders (the `num` it also shows is the node's position in its
sibling sequence). -/
def printGo : BTree → Nat → List (BTree × Nat)
  | .node a p cs, d => (.node a p cs, d) :: printGoChildren cs (d + 1)

/-- The `for num, child in enumerate(node.children)` loop of
`print_tree`. -/
def printGoChildren : List BTree → Nat → List (BTree × Nat)
  | [], _ => []
  | c :: cs, d => printGo c d ++ printGoChildren cs d

end

/-- `BookmarkNode.print_tree()` as called with its defaults: `node` is
`None`, so the root is assigned to `node` but the `else` branch that
prints is skipped — nothing is printed for the root itself, and the
children are visited at depth `0 + 1`. -/
def print_tree (t : BTree) : List (BTree × Nat) :=
  printGoChildren t.children 1

/-- The `PyPDF2.PdfFileWriter` output document, as far as `write_pdf`
drives it: the zero-based source indices of the pages copied by
`addPage`, in order, and the outline entries appended by `addBookmark`
as `(title, zero-based page index, parent handle)` triples. -/
structure PdfWriter where
  pages : List Int
  bookmarks : List (JValue × Int × Option Nat)

/-- `pdfwriter.addBookmark(title, pagenum, parent=parent)`: appends an
outline entry and returns a handle to it (its index) for use as the
`parent` of later entries. -/
def addBookmark (w : PdfWriter) (title : JValue) (pagenum : Int)
    (parent : Option Nat) : PdfWriter × Nat :=
  ({ w with bookmarks := w.bookmarks ++ [(title, pagenum, parent)] },
   w.bookmarks.length)

mutual

/-- `_add_bookmark(node, pdfwriter, parent)` on a node whose `parent`
attribute is not `None`: emit the entry with `node.page_number - 1`,
then visit the children with the fresh handle. -/
def addBookmarkGo : BTree → PdfWriter → Option Nat → PdfWriter
  | .node a p cs, w, parent =>
    let r := addBookmark w a (p - 1) parent
    addBookmarkChildren cs r.1 (some r.2)

/-- The `for child in node.children` loop of `_add_bookmark`. -/
def addBookmarkChildren : List BTree → PdfWriter → Option Nat → PdfWriter
  | [], w, _ => w
  | c :: cs, w, pn => addBookmarkChildren cs (addBookmarkGo c w pn) pn

end

/-- `BookmarkNode.add_to_pdf(pdfwriter)` as `write_pdf` calls it, on the
tree root: the root's own `parent` attribute is `None`, so `pdf_node`
stays `None`, no entry is emitted for the root, and the children are
visited with `parent=None`. -/
def add_to_pdf (t : BTree) (w : PdfWriter) : PdfWriter :=
  addBookmarkChildren t.children w none

/-- Python `range(a, b)` over ints, in order. -/
def pyRange (a b : Int) : List Int :=
  (List.range (b - a).toNat).map (fun (k : Nat) => a + (k : Int))

/-- `write_pdf(bookmarks_tree, pdfreader, output_filename, start_page,
end_page)`: resolve the defaults (`0` and `getNumPages() - 1` as
zero-based bounds, otherwise the 1-based argument minus one), copy
`range(start_page, end_page + 1)` pages, then run `add_to_pdf`.
`numPages` stands for `pdfreader.getNumPages()`; writing the file is
external I/O that does not touch the computed document. -/
def write_pdf (t : BTree) (numPages : Nat)
    (start_page end_page : Option Int) : PdfWriter :=
  let s : Int := match start_page with | none => 0 | some v => v - 1
  let e : Int := match end_page with | none => (numPages : Int) - 1 | some v => v - 1
  add_to_pdf t { pages := pyRange s (e + 1), bookmarks := [] }

/-- A bookmark node in the heap view: the attributes of a
`BookmarkNode` object, with object references as `Nat` ids.  The unused
`tabs` attribute of the legacy csv path is omitted. -/
structure PNode where
  parent : Option Nat
  children : List Nat
  title : JValue
  page_number : Int

/-- The object heap: total map from ids to node states (ids outside the
allocated tree read as inert default nodes). -/
abbrev Heap := Nat → PNode

/-- Writing one object's state back into the heap. -/
def hset (h : Heap) (i : Nat) (n : PNode) : Heap :=
  fun j => if j = i then n else h j

/-- `self.add_child(child)`: `self.children.append(child)` then
`child.parent = self`, in that order. -/
def add_child (h : Heap) (self child : Nat) : Heap :=
  let h1 := hset h self { h self with children := (h self).children ++ [child] }
  hset h1 child { h1 child with parent := some self }

/-- `self.set_parent(new_parent)`: remember the old parent, attach via
`new_parent.add_child(self)` and only then, if there was an old parent,
`old_parent.children.remove(self)` — which removes the first occurrence
or raises `ValueError` when `self` is not in the list. -/
def set_parent (h : Heap) (self newp : Nat) : Except String Heap :=
  let oldp := (h self).parent
  let h1 := add_child h newp self
  match oldp with
  | none => .ok h1
  | some op =>
    if self ∈ (h1 op).children then
      .ok (hset h1 op { h1 op with children := (h1 op).children.erase self })
    else .error "ValueError: list.remove(x): x not in list"

/-- The index computation of CPython `list.insert(i, x)`: a negative
index counts from the end and is clamped to the front, an index past
the end appends. -/
def pyInsertPos (len : Nat) (i : Int) : Nat :=
  if i < 0 then (max (i + len) 0).toNat else min i.toNat len

/-- CPython `list.insert(i, x)`. -/
def pyInsert (l : List Nat) (i : Int) (x : Nat) : List Nat :=
  l.insertIdx (pyInsertPos l.length i) x

/-- `self.move_to(new_index)`: on the root it prints
`Cannot move the root node` and returns; otherwise it pops `self` from
its first position in `self.parent.children` (`ValueError` if absent)
and re-inserts it at `new_index` with `list.insert` semantics.  The
first component is the printed output. -/
def move_to (h : Heap) (self : Nat) (new_index : Int) :
    List String × Except String Heap :=
  match (h self).parent with
  | none => (["Cannot move the root node"], .ok h)
  | some p =>
    let cs := (h p).children
    if self ∈ cs then
      ([], .ok (hset h p { h p with children := pyInsert (cs.erase self) new_index self }))
    else ([], .error "ValueError: x not in list")

/-- `self.remove()`: when `self.parent` is `None` it prints
`Cannot remove the root node` but — there is no `return` — still
executes `self.parent.children.remove(self)`, which raises
`AttributeError` on `None`; otherwise it removes the first occurrence
of `self` from the parent's children (`ValueError` if absent). -/
def remove (h : Heap) (self : Nat) : List String × Except String Heap :=
  match (h self).parent with
  | none =>
    (["Cannot remove the root node"],
     .error "AttributeError: NoneType object has no attribute children")
  | some p =>
    if self ∈ (h p).children then
      ([], .ok (hset h p { h p with children := (h p).children.erase self }))
    else ([], .error "ValueError: x not in list")

/-- Iterating the `parent` attribute `k` times from node `i` (`none`
once a `parent` is `None` before the steps run out). -/
def parentIterN (h : Heap) : Nat → Nat → Option Nat
  | 0, i => some i
  | k + 1, i =>
    match (h i).parent with
    | none => none
    | some p => parentIterN h k p

/-- No node is a strict parent-ancestor of itself: the no-cycles shape
invariant of the spec, read off the `parent` back-references. -/
def Acyclic (h : Heap) : Prop := ∀ i k, parentIterN h (k + 1) i ≠ some i

/-- `descWithin h n a b`: `b` is reachable from `a` through `children`
links in at most `n` steps, at least one. -/
def descWithin (h : Heap) : Nat → Nat → Nat → Bool
  | 0, _, _ => false
  | n + 1, a, b =>
    (h a).children.contains b ||
      (h a).children.any (fun c => descWithin h n c b)

/-- Extract the heap from a successful operation. -/
def getOk : Except String Heap → Heap → Heap
  | .ok h, _ => h
  | .error _, d => d

/-- A concrete bookmark tree used by witnesses. -/
def exTree : BTree :=
  .node (.jstr "Root") 0
    [.node (.jstr "Intro") 1 [.node (.jstr "Sub") 2 []],
     .node (.jstr "End") 3 []]

/-- Claim C7's example tree: root A with children B then C, B with
child D. -/
def exTreeA : BTree :=
  .node (.jstr "A") 1
    [.node (.jstr "B") 2 [.node (.jstr "D") 4 []],
     .node (.jstr "C") 3 []]

/-- A two-node heap: root `0` (title A) with single child `1`
(title B). -/
def heapAB : Heap := fun i =>
  if i = 0 then ⟨none, [1], .jstr "A", 0⟩
  else if i = 1 then ⟨some 0, [], .jstr "B", 1⟩
  else ⟨none, [], .jnull, 0⟩

/-- A three-node heap: root `0` with children `[1, 2]`. -/
def heapRBC : Heap := fun i =>
  if i = 0 then ⟨none, [1, 2], .jstr "R", 0⟩
  else if i = 1 then ⟨some 0, [], .jstr "B", 1⟩
  else if i = 2 then ⟨some 0, [], .jstr "C", 2⟩
  else ⟨none, [], .jnull, 0⟩

/-- A schema-violating bookmark dict: `title` present, `page_number`
missing. -/
def badDict : JValue := .jobj [("title", .jstr "X")]

theorem BTree.one_le_sizeOf (t : BTree) : 1 ≤ sizeOf t := by
  cases t; simp; omega

theorem loadDict_get_dict_aux : ∀ fuel : Nat,
    (∀ t t0 : BTree, sizeOf t ≤ fuel → loadDictRun fuel t0 (get_dict t) = (t, none)) ∧
    (∀ (cs : List BTree) (a : JValue) (p : Int) (pre : List BTree), sizeOf cs ≤ fuel →
      loadChildrenRun fuel (BTree.node a p pre) (get_dict_list cs) =
        (BTree.node a p (pre ++ cs), none)) := by
  intro fuel
  induction fuel with
  | zero =>
    refine ⟨fun t t0 h => absurd h ?_, fun cs a p pre h => ?_⟩
    · have := t.one_le_sizeOf
      omega
    · cases cs with
      | nil => simp [get_dict_list, loadChildrenRun]
      | cons c cs' =>
        refine absurd h ?_
        simp only [List.cons.sizeOf_spec]
        omega
  | succ fuel ih =>
    constructor
    · rintro ⟨a, p, cs⟩ ⟨a0, p0, cs0⟩ h
      have hcs : sizeOf cs ≤ fuel := by simp at h; omega
      simp only [get_dict, loadDictRun, pyGetItem, List.lookup, BTree.setTitle,
        BTree.setPage, BTree.setChildren, pySub1, pyIterList]
      norm_num
      have := ih.2 cs a p [] hcs
      simpa using this
    · intro cs a p pre h
      cases cs with
      | nil => simp [get_dict_list, loadChildrenRun]
      | cons c cs' =>
        have hc : sizeOf c ≤ fuel := by simp at h; omega
        have hcs' : sizeOf cs' ≤ fuel := by simp at h; omega
        simp only [get_dict_list, loadChildrenRun, ih.1 c freshNode hc,
          BTree.appendChild]
        have := ih.2 cs' a p (pre ++ [c]) hcs'
        simpa [List.append_assoc] using this

/-- C1: JSON round-trip law. Re-importing the dict produced by
`get_dict` (the value `json.loads` recovers from `get_json`'s output)
with `load_dict` succeeds and rebuilds exactly the exported tree —
same title and same stored `page_number` at every node, same child
order, same nesting — whatever the importing node's previous state
was. -/
theorem C1_json_roundtrip (t t0 : BTree) (fuel : Nat) (hfuel : sizeOf t ≤ fuel) :
    loadDictRun fuel t0 (get_dict t) = (t, none) :=
  (loadDict_get_dict_aux fuel).1 t t0 hfuel

theorem C1_json_roundtrip_witness :
    loadDictRun (sizeOf exTree) freshNode (get_dict exTree) = (exTree, none) :=
  C1_json_roundtrip exTree freshNode (sizeOf exTree) (Nat.le_refl _)

theorem hset_self (h : Heap) (i : Nat) (n : PNode) : hset h i n i = n := by
  simp [hset]

theorem hset_other (h : Heap) (i : Nat) (n : PNode) (j : Nat) (hj : j ≠ i) :
    hset h i n j = h j := by
  simp [hset, hj]

theorem add_child_parent (h : Heap) (s c i : Nat) :
    ((add_child h s c) i).parent = if i = c then some s else (h i).parent := by
  unfold add_child hset
  by_cases hic : i = c
  · subst hic
    simp
  · by_cases his : i = s
    · subst his
      simp [hic]
    · simp [hic, his]

theorem add_child_children (h : Heap) (s c i : Nat) :
    ((add_child h s c) i).children =
      if i = s then (h s).children ++ [c] else (h i).children := by
  unfold add_child hset
  by_cases hic : i = c <;> by_cases his : i = s <;> simp_all

/-- C4: the claim describes `remove` on the root as a cleanly reported
no-op; the code prints the report but then — the early `return` is
missing — evaluates `self.parent.children.remove(self)` with
`self.parent = None`, so the call raises `AttributeError` (the tree is
left unmodified only because the attribute access itself fails). -/
theorem C4_remove_root_raises (h : Heap) (i : Nat) (hroot : (h i).parent = none) :
    remove h i = (["Cannot remove the root node"],
      .error "AttributeError: NoneType object has no attribute children") := by
  unfold remove
  rw [hroot]

theorem C4_remove_root_raises_witness :
    remove heapAB 0 = (["Cannot remove the root node"],
      .error "AttributeError: NoneType object has no attribute children") :=
  C4_remove_root_raises heapAB 0 rfl

/-- C10: a successful `remove` on a non-root node `n` mutates exactly
the former parent's children sequence (first occurrence of `n`
deleted); every other object — `n` itself included — is untouched, so
`n.parent` still references the former parent and `n`'s `children`,
`title` and `page_number` are unchanged. -/
theorem C10_remove_frame (h : Heap) (n p : Nat)
    (hpar : (h n).parent = some p) (hmem : n ∈ (h p).children) (hnp : n ≠ p) :
    ∃ h', remove h n = ([], .ok h') ∧
      (h' p).children = (h p).children.erase n ∧
      (∀ j, j ≠ p → h' j = h j) ∧
      (h' n).parent = some p ∧ (h' n).children = (h n).children ∧
      (h' n).title = (h n).title ∧ (h' n).page_number = (h n).page_number := by
  refine ⟨hset h p { h p with children := (h p).children.erase n }, ?_, ?_, ?_, ?_, ?_, ?_, ?_⟩
  · unfold remove
    rw [hpar]
    simp [hmem]
  · rw [hset_self]
  · intro j hj
    exact hset_other _ _ _ _ hj
  · rw [hset_other _ _ _ _ hnp, hpar]
  · rw [hset_other _ _ _ _ hnp]
  · rw [hset_other _ _ _ _ hnp]
  · rw [hset_other _ _ _ _ hnp]

theorem C10_remove_frame_witness :
    ∃ h', remove heapAB 1 = ([], .ok h') ∧
      (h' 0).children = ((heapAB 0).children).erase 1 ∧
      (∀ j, j ≠ 0 → h' j = heapAB j) ∧
      (h' 1).parent = some 0 ∧ (h' 1).children = (heapAB 1).children ∧
      (h' 1).title = (heapAB 1).title ∧ (h' 1).page_number = (heapAB 1).page_number :=
  C10_remove_frame heapAB 1 0 rfl (by decide) (by decide)

/-- C8: reparent postcondition. In a well-formed state (`n` occurs
exactly once in its recorded parent's children and, when `p` is not
that parent, not at all in `p`'s children), `set_parent(n, p)` succeeds
and afterwards `n.parent == p`, `n` occurs exactly once in
`p.children`, and zero times in its former parent's children when that
former parent is distinct from `p`. -/
theorem C8_set_parent_post (h : Heap) (n p : Nat)
    (hold : ∀ op, (h n).parent = some op → ((h op).children).count n = 1)
    (hnew : (h n).parent ≠ some p → ((h p).children).count n = 0) :
    ∃ h', set_parent h n p = .ok h' ∧
      (h' n).parent = some p ∧
      ((h' p).children).count n = 1 ∧
      (∀ op, (h n).parent = some op → op ≠ p → ((h' op).children).count n = 0) := by
  rcases hpar : (h n).parent with _ | op
  · -- no old parent: the attach is the whole effect
    refine ⟨add_child h p n, ?_, ?_, ?_, ?_⟩
    · unfold set_parent
      rw [hpar]
    · rw [add_child_parent]
      simp
    · rw [add_child_children]
      have h0 : ((h p).children).count n = 0 := hnew (by rw [hpar]; simp)
      simp [List.count_append, h0]
    · intro op hop
      exact absurd hop (by simp)
  · -- old parent `op`: attach, then erase from old children
    have hcount : ((h op).children).count n = 1 := hold op hpar
    have hmem : n ∈ (h op).children := by
      rw [← List.count_pos_iff]
      omega
    have hmem1 : n ∈ ((add_child h p n) op).children := by
      rw [add_child_children]
      by_cases hop : op = p <;> simp [hop, hmem]
    refine ⟨hset (add_child h p n) op
      { (add_child h p n) op with
        children := (((add_child h p n) op).children).erase n }, ?_, ?_, ?_, ?_⟩
    · unfold set_parent
      rw [hpar]
      simp [hmem1]
    · by_cases hno : n = op
      · subst hno
        rw [hset_self]
        show ((add_child h p n) n).parent = some p
        rw [add_child_parent]
        simp
      · rw [hset_other _ _ _ _ hno, add_child_parent]
        simp
    · by_cases hpo : p = op
      · subst hpo
        rw [hset_self]
        show List.count n ((((add_child h p n) p).children).erase n) = 1
        rw [add_child_children]
        simp only [if_pos rfl]
        rw [List.count_erase_self]
        simp [List.count_append, hcount]
      · rw [hset_other _ _ _ _ hpo, add_child_children]
        have hne : (h n).parent ≠ some p := by
          rw [hpar]
          intro hc
          exact hpo (by injection hc with h2; exact h2.symm)
        simp [List.count_append, hnew hne]
    · intro op' hop' hop'p
      have heq : op = op' := by injection hop'
      subst heq
      rw [hset_self]
      show List.count n ((((add_child h p n) op).children).erase n) = 0
      rw [add_child_children]
      simp only [if_neg hop'p]
      rw [List.count_erase_self, hcount]

theorem C8_set_parent_post_witness :
    ∃ h', set_parent heapRBC 1 2 = .ok h' ∧
      (h' 1).parent = some 2 ∧
      ((h' 2).children).count 1 = 1 ∧
      (∀ op, (heapRBC 1).parent = some op → op ≠ 2 → ((h' op).children).count 1 = 0) :=
  C8_set_parent_post heapRBC 1 2
    (by
      intro op hop
      have : op = 0 := by
        have : (heapRBC 1).parent = some 0 := rfl
        rw [this] at hop
        injection hop with h2
        exact h2.symm
      subst this
      decide)
    (fun _ => by decide)

theorem set_parent_ok_parent (h : Heap) (n p : Nat) (h' : Heap)
    (hok : set_parent h n p = .ok h') (i : Nat) :
    (h' i).parent = if i = n then some p else (h i).parent := by
  unfold set_parent at hok
  rcases hpar : (h n).parent with _ | op
  · rw [hpar] at hok
    have hh : add_child h p n = h' := by
      injection hok
    subst hh
    rw [add_child_parent]
  · rw [hpar] at hok
    simp only at hok
    by_cases hmem : n ∈ ((add_child h p n) op).children
    · rw [if_pos hmem] at hok
      have hh : hset (add_child h p n) op
          { (add_child h p n) op with
            children := (((add_child h p n) op).children).erase n } = h' := by
        injection hok
      subst hh
      by_cases hio : i = op
      · subst hio
        rw [hset_self]
        show ((add_child h p n) i).parent = _
        rw [add_child_parent]
      · rw [hset_other _ _ _ _ hio, add_child_parent]
    · rw [if_neg hmem] at hok
      exact absurd hok (by simp)

theorem parentIterN_add (h : Heap) (a b j : Nat) :
    parentIterN h (a + b) j = (parentIterN h a j).bind (parentIterN h b) := by
  induction a generalizing j with
  | zero =>
    simp [parentIterN]
  | succ a ih =>
    have e : a + 1 + b = (a + b) + 1 := by omega
    rw [e]
    rw [show parentIterN h ((a + b) + 1) j =
        (match (h j).parent with
         | none => none
         | some q => parentIterN h (a + b) q) from rfl]
    rw [show parentIterN h (a + 1) j =
        (match (h j).parent with
         | none => none
         | some q => parentIterN h a q) from rfl]
    cases hp : (h j).parent with
    | none => simp
    | some q => simp [ih q]

/-- Any `parent`-chain of the updated heap either already existed in the
old heap or first reaches the re-parented node `n` along a prefix that
is a chain of both heaps. -/
theorem chain_transfer (h h' : Heap) (n p : Nat)
    (Hpar : ∀ i, (h' i).parent = if i = n then some p else (h i).parent) :
    ∀ m j t, parentIterN h' m j = some t →
      parentIterN h m j = some t ∨
        ∃ a, a < m ∧ parentIterN h a j = some n ∧ parentIterN h' a j = some n := by
  intro m
  induction m with
  | zero =>
    intro j t ht
    left
    simpa [parentIterN] using ht
  | succ m ih =>
    intro j t ht
    by_cases hj : j = n
    · subst hj
      right
      exact ⟨0, by omega, rfl, rfl⟩
    · rw [show parentIterN h' (m + 1) j =
          (match (h' j).parent with
           | none => none
           | some q => parentIterN h' m q) from rfl] at ht
      rw [Hpar j, if_neg hj] at ht
      cases hq : (h j).parent with
      | none =>
        rw [hq] at ht
        exact absurd ht (by simp)
      | some q =>
        rw [hq] at ht
        rcases ih q t ht with hL | ⟨a, ha, h1, h2⟩
        · left
          rw [show parentIterN h (m + 1) j =
              (match (h j).parent with
               | none => none
               | some q => parentIterN h m q) from rfl, hq]
          exact hL
        · right
          refine ⟨a + 1, by omega, ?_, ?_⟩
          · rw [show parentIterN h (a + 1) j =
                (match (h j).parent with
                 | none => none
                 | some q => parentIterN h a q) from rfl, hq]
            exact h1
          · rw [show parentIterN h' (a + 1) j =
                (match (h' j).parent with
                 | none => none
                 | some q => parentIterN h' a q) from rfl, Hpar j, if_neg hj, hq]
            exact h2

/-- C3 counterexample: `heapAB` is a well-formed two-node tree (root `0`
with child `1`), yet `set_parent(0, 1)` — reparenting the root under
its own child — succeeds and produces a heap in which node `0` is its
own descendant (a `0 → 1 → 0` cycle through the children lists), so
`set_parent` does not preserve the no-cycles invariant for every pair
of nodes. -/
theorem C3_counterexample :
    Acyclic heapAB ∧ (set_parent heapAB 0 1).isOk = true ∧
      descWithin (getOk (set_parent heapAB 0 1) heapAB) 2 0 0 = true := by
  refine ⟨?_, rfl, rfl⟩
  intro i k
  by_cases h1 : i = 1
  · subst h1
    cases k with
    | zero => simp [parentIterN, heapAB]
    | succ k => simp [parentIterN, heapAB]
  · have hp : (heapAB i).parent = none := by
      by_cases h0 : i = 0
      · subst h0
        rfl
      · simp [heapAB, h0, h1]
    simp [parentIterN, hp]

/-- C3, amended: `set_parent(n, p)` attaches `n` under `p` first and
detaches it from its old parent second (same final state as
detach-first), and it preserves acyclicity only under the precondition
that `n` is not on `p`'s parent-ancestor chain (in particular `p ≠ n`
and `p` is not a descendant of `n`); dropping that precondition allows
a cycle, as `C3_counterexample` shows. -/
theorem C3_set_parent_acyclic (h : Heap) (n p : Nat)
    (hac : Acyclic h) (hnp : ∀ k, parentIterN h k p ≠ some n) :
    ∀ h', set_parent h n p = .ok h' → Acyclic h' := by
  intro h' hok i k hcyc
  have Hpar := set_parent_ok_parent h n p h' hok
  rcases chain_transfer h h' n p Hpar (k + 1) i i hcyc with hL | ⟨a, ha, h1, h2⟩
  · exact hac i k hL
  · -- rotate the cycle so that it starts at `n`
    have h3 := parentIterN_add h' a (k + 1 - a) i
    rw [show a + (k + 1 - a) = k + 1 from by omega, hcyc, h2] at h3
    simp only [Option.some_bind] at h3
    have h4 : parentIterN h' ((k + 1 - a) + a) n = some n := by
      rw [parentIterN_add, ← h3]
      simpa using h2
    obtain ⟨m, hm⟩ : ∃ m, (k + 1 - a) + a = m + 1 := ⟨k, by omega⟩
    rw [hm] at h4
    rw [show parentIterN h' (m + 1) n =
        (match (h' n).parent with
         | none => none
         | some q => parentIterN h' m q) from rfl, Hpar n, if_pos rfl] at h4
    rcases chain_transfer h h' n p Hpar m p n h4 with hL | ⟨a', _, h1', _⟩
    · exact hnp m hL
    · exact hnp a' h1'

theorem C3_set_parent_acyclic_witness :
    Acyclic (getOk (set_parent heapRBC 2 1) heapRBC) := by
  have hac : Acyclic heapRBC := by
    intro i k
    by_cases h1 : i = 1
    · subst h1
      cases k with
      | zero => simp [parentIterN, heapRBC]
      | succ k => simp [parentIterN, heapRBC]
    · by_cases h2 : i = 2
      · subst h2
        cases k with
        | zero => simp [parentIterN, heapRBC]
        | succ k => simp [parentIterN, heapRBC]
      · have hp : (heapRBC i).parent = none := by
          by_cases h0 : i = 0
          · subst h0
            rfl
          · simp [heapRBC, h0, h1, h2]
        simp [parentIterN, hp]
  have hnp : ∀ k, parentIterN heapRBC k 1 ≠ some 2 := by
    intro k
    match k with
    | 0 => simp [parentIterN]
    | 1 => simp [parentIterN, heapRBC]
    | k + 2 => simp [parentIterN, heapRBC]
  exact C3_set_parent_acyclic heapRBC 2 1 hac hnp _ rfl

theorem pyInsert_cases (l : List Nat) (i : Int) (x : Nat) :
    (0 ≤ i → i.toNat ≤ l.length → pyInsert l i x = l.insertIdx i.toNat x) ∧
    ((l.length : Int) < i → pyInsert l i x = l ++ [x]) ∧
    (i + l.length ≤ 0 → pyInsert l i x = x :: l) ∧
    (i < 0 → 0 < i + l.length →
      pyInsert l i x = l.insertIdx (i + l.length).toNat x) := by
  refine ⟨?_, ?_, ?_, ?_⟩
  · intro h0 hle
    unfold pyInsert pyInsertPos
    rw [if_neg (by omega)]
    congr 1
    omega
  · intro hlt
    unfold pyInsert pyInsertPos
    rw [if_neg (by omega)]
    rw [show min i.toNat l.length = l.length from by omega]
    exact List.insertIdx_length_self l x
  · intro hle
    unfold pyInsert pyInsertPos
    by_cases hneg : i < 0
    · rw [if_pos hneg, max_eq_right (by omega : i + (l.length : Int) ≤ 0), Int.toNat_zero]
      rfl
    · rw [if_neg hneg]
      rw [show min i.toNat l.length = 0 from by omega]
      rfl
  · intro hneg hpos
    unfold pyInsert pyInsertPos
    rw [if_pos hneg, max_eq_left (by omega : (0 : Int) ≤ i + l.length)]

/-- C5 counterexample: in `heapRBC` node `1` has two siblings
(`children = [1, 2]` under the root) and `5` is out of bounds, yet
`move_to(5)` does not report an error and does not leave the sibling
sequence unchanged — it succeeds and reorders the children to
`[2, 1]`. -/
theorem C5_counterexample :
    (move_to heapRBC 1 5).1 = [] ∧ (move_to heapRBC 1 5).2.isOk = true ∧
      ((getOk (move_to heapRBC 1 5).2 heapRBC) 0).children = [2, 1] ∧
      (heapRBC 0).children = [1, 2] ∧ ([2, 1] : List Nat) ≠ [1, 2] :=
  ⟨rfl, rfl, rfl, rfl, by decide⟩

/-- C5, amended: `move_to` never rejects an integer index for a
non-root node found among its parent's children: it always succeeds,
reinserting the node with CPython `list.insert` clamping — at
`new_index` itself when `0 ≤ new_index ≤ k-1` (`k-1` the sibling count
after removal), appended at the end when `new_index` is larger,
counted from the end when negative, clamped to the front when too
negative — and mutates nothing but the parent's children sequence. -/
theorem C5_move_to_clamps (h : Heap) (self p : Nat) (i : Int)
    (hp : (h self).parent = some p) (hm : self ∈ (h p).children) :
    ∃ h', move_to h self i = ([], .ok h') ∧
      (∀ j, j ≠ p → h' j = h j) ∧
      (h' p).parent = (h p).parent ∧
      (h' p).children = pyInsert (((h p).children).erase self) i self ∧
      (0 ≤ i → i.toNat ≤ (((h p).children).erase self).length →
        pyInsert (((h p).children).erase self) i self =
          (((h p).children).erase self).insertIdx i.toNat self) ∧
      (((((h p).children).erase self).length : Int) < i →
        pyInsert (((h p).children).erase self) i self =
          ((h p).children).erase self ++ [self]) ∧
      (i + (((h p).children).erase self).length ≤ 0 →
        pyInsert (((h p).children).erase self) i self =
          self :: ((h p).children).erase self) ∧
      (i < 0 → 0 < i + (((h p).children).erase self).length →
        pyInsert (((h p).children).erase self) i self =
          (((h p).children).erase self).insertIdx
            (i + (((h p).children).erase self).length).toNat self) := by
  refine ⟨hset h p { h p with
      children := pyInsert (((h p).children).erase self) i self },
    ?_, ?_, ?_, ?_,
    (pyInsert_cases _ i self).1, (pyInsert_cases _ i self).2.1,
    (pyInsert_cases _ i self).2.2.1, (pyInsert_cases _ i self).2.2.2⟩
  · unfold move_to
    rw [hp]
    simp [hm]
  · intro j hj
    exact hset_other _ _ _ _ hj
  · rw [hset_self]
  · rw [hset_self]

theorem C5_move_to_clamps_witness :
    ∃ h', move_to heapRBC 1 2 = ([], .ok h') ∧ (h' 0).children =
      pyInsert (((heapRBC 0).children).erase 1) 2 1 := by
  obtain ⟨h', h1, -, -, h4, -⟩ := C5_move_to_clamps heapRBC 1 0 2 rfl (by decide)
  exact ⟨h', h1, h4⟩

/-- C6 counterexample: loading `{"title": "X"}` into a tree titled
`Root` propagates a `KeyError` — but the tree's title has already been
overwritten with `X`, so a partial mutation remains applied. -/
theorem C6_counterexample :
    (loadDictRun 9 exTree badDict).2 = some "KeyError" ∧
      (loadDictRun 9 exTree badDict).1.title = .jstr "X" ∧
      exTree.title = .jstr "Root" ∧ (JValue.jstr "X") ≠ .jstr "Root" :=
  ⟨rfl, rfl, rfl, by simp⟩

/-- C6, amended: a JSON parse failure propagates with the tree fully
unchanged, and a schema failure propagates — but the assignments made
before the failing access remain: a missing `title` key leaves the
node unchanged, while a present `title` with a missing (or otherwise
failing) `page_number` leaves the new title applied. -/
theorem C6_load_failure_states (fuel : Nat) (t : BTree) (v : JValue) (e : String) :
    (loadJsonRun fuel t (.error e) = (t, some e)) ∧
    (pyGetItem v "title" = .error e → loadDictRun (fuel + 1) t v = (t, some e)) ∧
    (∀ tv, pyGetItem v "title" = .ok tv → pyGetItem v "page_number" = .error e →
      loadDictRun (fuel + 1) t v = (t.setTitle tv, some e)) := by
  refine ⟨rfl, ?_, ?_⟩
  · intro h1
    simp [loadDictRun, h1]
  · intro tv h1 h2
    simp [loadDictRun, h1, h2]

theorem C6_load_failure_states_witness :
    loadJsonRun 3 exTree (.error "SyntaxError") = (exTree, some "SyntaxError") ∧
      loadDictRun 3 exTree (.jobj []) = (exTree, some "KeyError") ∧
      loadDictRun 3 exTree badDict = (exTree.setTitle (.jstr "X"), some "KeyError") :=
  ⟨(C6_load_failure_states 3 exTree badDict "SyntaxError").1,
   (C6_load_failure_states 2 exTree (.jobj []) "KeyError").2.1 rfl,
   (C6_load_failure_states 2 exTree badDict "KeyError").2.2 (.jstr "X") rfl rfl⟩

/-- C7 counterexample: on the claimed example tree (root A with
children B then C, B with child D), the enumeration does not include
the root at depth 0 — `print_tree` yields three pairs, not the four
the claim requires. -/
theorem C7_counterexample :
    print_tree exTreeA ≠
      [(exTreeA, 0),
       (.node (.jstr "B") 2 [.node (.jstr "D") 4 []], 1),
       (.node (.jstr "D") 4 [], 2),
       (.node (.jstr "C") 3 [], 1)] :=
  fun hEq => absurd (congrArg List.length hEq) (by decide)

theorem printGo_depth_aux : ∀ n : Nat,
    (∀ t : BTree, sizeOf t ≤ n → ∀ (d : Nat) (e : BTree × Nat),
      e ∈ printGo t d → d ≤ e.2) ∧
    (∀ l : List BTree, sizeOf l ≤ n → ∀ (d : Nat) (e : BTree × Nat),
      e ∈ printGoChildren l d → d ≤ e.2) := by
  intro n
  induction n with
  | zero =>
    refine ⟨fun t h => absurd h ?_, fun l h d e he => ?_⟩
    · have := t.one_le_sizeOf
      omega
    · cases l with
      | nil => simp [printGoChildren] at he
      | cons c cs =>
        refine absurd h ?_
        simp only [List.cons.sizeOf_spec]
        omega
  | succ n ih =>
    constructor
    · rintro ⟨a, p, cs⟩ hsz d e he
      have hcs : sizeOf cs ≤ n := by simp at hsz; omega
      rw [printGo] at he
      rcases List.mem_cons.mp he with h1 | h2
      · subst h1
        exact Nat.le_refl d
      · exact Nat.le_of_succ_le (ih.2 cs hcs (d + 1) e h2)
    · intro l hsz d e he
      cases l with
      | nil => simp [printGoChildren] at he
      | cons c cs =>
        have hc : sizeOf c ≤ n := by simp at hsz; omega
        have hcs : sizeOf cs ≤ n := by simp at hsz; omega
        rw [printGoChildren] at he
        rcases List.mem_append.mp he with h1 | h2
        · exact ih.1 c hc d e h1
        · exact ih.2 cs hcs d e h2

/-- C7, amended: depth-first enumeration visits the non-root nodes in
pre-order, children in sequence order, at depth equal to their
distance from the root — but the root itself is never emitted (every
emitted pair has depth at least 1): the example tree yields exactly
`[(B,1), (D,2), (C,1)]`. -/
theorem C7_print_tree_preorder :
    print_tree exTreeA =
      [(.node (.jstr "B") 2 [.node (.jstr "D") 4 []], 1),
       (.node (.jstr "D") 4 [], 2),
       (.node (.jstr "C") 3 [], 1)] ∧
    (∀ (t : BTree) (e : BTree × Nat), e ∈ print_tree t → 1 ≤ e.2) := by
  refine ⟨rfl, fun t e he => ?_⟩
  exact (printGo_depth_aux (sizeOf t.children)).2 t.children (Nat.le_refl _) 1 e he

theorem C7_print_tree_preorder_witness :
    print_tree exTreeA =
      [(.node (.jstr "B") 2 [.node (.jstr "D") 4 []], 1),
       (.node (.jstr "D") 4 [], 2),
       (.node (.jstr "C") 3 [], 1)] ∧
    1 ≤ ((.node (.jstr "B") 2 [.node (.jstr "D") 4 []], 1) : BTree × Nat).2 :=
  ⟨C7_print_tree_preorder.1,
   C7_print_tree_preorder.2 exTreeA (.node (.jstr "B") 2 [.node (.jstr "D") 4 []], 1)
     (by simp [print_tree, exTreeA, printGo, printGoChildren])⟩

theorem mem_pyRange {a b k : Int} : k ∈ pyRange a b ↔ a ≤ k ∧ k < b := by
  unfold pyRange
  rw [List.mem_map]
  constructor
  · rintro ⟨j, hj, hje⟩
    rw [List.mem_range] at hj
    omega
  · rintro ⟨h1, h2⟩
    exact ⟨(k - a).toNat, List.mem_range.mpr (by omega), by omega⟩

theorem addToPdf_aux : ∀ n : Nat,
    (∀ t : BTree, sizeOf t ≤ n →
      (∀ (w : PdfWriter) (pn : Option Nat),
        (addBookmarkGo t w pn).pages = w.pages ∧
        ∀ d : Nat, ((addBookmarkGo t w pn).bookmarks).map (fun b => b.2.1) =
          w.bookmarks.map (fun b => b.2.1) ++
            (printGo t d).map (fun e => e.1.page_number - 1)) ∧
      (∀ (w w' : PdfWriter) (pn : Option Nat), w.bookmarks = w'.bookmarks →
        (addBookmarkGo t w pn).bookmarks = (addBookmarkGo t w' pn).bookmarks)) ∧
    (∀ l : List BTree, sizeOf l ≤ n →
      (∀ (w : PdfWriter) (pn : Option Nat),
        (addBookmarkChildren l w pn).pages = w.pages ∧
        ∀ d : Nat, ((addBookmarkChildren l w pn).bookmarks).map (fun b => b.2.1) =
          w.bookmarks.map (fun b => b.2.1) ++
            (printGoChildren l d).map (fun e => e.1.page_number - 1)) ∧
      (∀ (w w' : PdfWriter) (pn : Option Nat), w.bookmarks = w'.bookmarks →
        (addBookmarkChildren l w pn).bookmarks =
          (addBookmarkChildren l w' pn).bookmarks)) := by
  intro n
  induction n with
  | zero =>
    refine ⟨fun t h => absurd h ?_, fun l h => ?_⟩
    · have := t.one_le_sizeOf
      omega
    · cases l with
      | nil =>
        refine ⟨fun w pn => ⟨rfl, fun d => by simp [addBookmarkChildren, printGoChildren]⟩,
          fun w w' pn hbk => ?_⟩
        simpa [addBookmarkChildren] using hbk
      | cons c cs =>
        refine absurd h ?_
        simp only [List.cons.sizeOf_spec]
        omega
  | succ n ih =>
    constructor
    · rintro ⟨a, p, cs⟩ hsz
      have hcs : sizeOf cs ≤ n := by simp at hsz; omega
      constructor
      · intro w pn
        constructor
        · show (addBookmarkChildren cs _ _).pages = w.pages
          exact ((ih.2 cs hcs).1 _ _).1
        · intro d
          show ((addBookmarkChildren cs _ _).bookmarks).map _ = _
          rw [((ih.2 cs hcs).1 _ _).2 (d + 1)]
          simp [addBookmark, printGo, BTree.page_number, List.append_assoc]
      · intro w w' pn hbk
        simp only [addBookmarkGo, addBookmark]
        rw [hbk]
        exact (ih.2 cs hcs).2 _ _ _ rfl
    · intro l hsz
      cases l with
      | nil =>
        refine ⟨fun w pn => ⟨rfl, fun d => by simp [addBookmarkChildren, printGoChildren]⟩,
          fun w w' pn hbk => ?_⟩
        simpa [addBookmarkChildren] using hbk
      | cons c cs =>
        have hc : sizeOf c ≤ n := by simp at hsz; omega
        have hcs : sizeOf cs ≤ n := by simp at hsz; omega
        constructor
        · intro w pn
          constructor
          · show (addBookmarkChildren cs (addBookmarkGo c w pn) pn).pages = w.pages
            rw [((ih.2 cs hcs).1 _ _).1]
            exact ((ih.1 c hc).1 w pn).1
          · intro d
            show ((addBookmarkChildren cs (addBookmarkGo c w pn) pn).bookmarks).map _ = _
            rw [((ih.2 cs hcs).1 _ _).2 d, (((ih.1 c hc).1 w pn).2 d)]
            simp [printGoChildren, List.append_assoc]
        · intro w w' pn hbk
          show (addBookmarkChildren cs (addBookmarkGo c w pn) pn).bookmarks =
            (addBookmarkChildren cs (addBookmarkGo c w' pn) pn).bookmarks
          exact (ih.2 cs hcs).2 _ _ pn ((ih.1 c hc).2 w w' pn hbk)

/-- C9: `write_pdf` copies exactly the pages whose 1-based number lies
in `[start_page, end_page]` (each bound defaulting to the document
edge when omitted), and the rebuilt outline is entirely independent of
the trim range: the entries are the tree's non-root nodes in pre-order
(the same order `print_tree` enumerates), each encoding its node's
original `page_number - 1` as the zero-based page index. -/
theorem C9_write_pdf (t : BTree) (n : Nat) (sp ep : Option Int) (k : Int) :
    (k ∈ (write_pdf t n sp ep).pages ↔
      ((match sp with | none => (1 : Int) | some s => s) ≤ k + 1 ∧
       k + 1 ≤ (match ep with | none => (n : Int) | some e => e))) ∧
    (write_pdf t n sp ep).bookmarks = (write_pdf t n none none).bookmarks ∧
    ((write_pdf t n sp ep).bookmarks).map (fun b => b.2.1) =
      (print_tree t).map (fun e => e.1.page_number - 1) := by
  have haux := (addToPdf_aux (sizeOf t.children)).2 t.children (Nat.le_refl _)
  refine ⟨?_, ?_, ?_⟩
  · show k ∈ (addBookmarkChildren t.children _ none).pages ↔ _
    rw [(haux.1 _ _).1]
    show k ∈ pyRange _ _ ↔ _
    rw [mem_pyRange]
    cases sp <;> cases ep <;> simp only [] <;> omega
  · show (addBookmarkChildren t.children _ none).bookmarks =
      (addBookmarkChildren t.children _ none).bookmarks
    exact haux.2 _ _ none rfl
  · show ((addBookmarkChildren t.children _ none).bookmarks).map _ = _
    rw [(haux.1 _ _).2 1]
    simp [print_tree]

/-- C2: `get_dict` does not emit the node's 1-based page number — it
emits `page_number + 1`.  For every node, the JSON `page_number` field
is one more than the stored field; concretely, a node whose stored
`page_number` is `1` (a bookmark to the first page under the 1-based
internal convention: PDF import stores zero-based index plus one, and
PDF export `add_to_pdf` encodes it back as the zero-based index
`page_number - 1 = 0`) is JSON-exported with `page_number: 2`, not
`1`. -/
theorem C2_get_dict_page_number :
    (∀ t : BTree, pyGetItem (get_dict t) "page_number" =
      .ok (.jint (t.page_number + 1))) ∧
    pyGetItem (get_dict (.node (.jstr "Intro") 1 [])) "page_number" =
      .ok (.jint 2) ∧
    (add_to_pdf (.node (.jstr "Root") 0 [.node (.jstr "Intro") 1 []])
      ⟨[], []⟩).bookmarks = [(.jstr "Intro", 0, none)] := by
  refine ⟨?_, rfl, rfl⟩
  rintro ⟨a, p, cs⟩
  rfl
